import Mathlib

/-!
Shallow embedding of the ARARAT-MVP viewer core (DICOM coordinate engine,
ROI validation, LRU series cache, workspace discovery, ROI lifecycle,
mode state machine, risk categorization), translated from the Python
sources, together with theorems settling the specification claims.

Numeric model: Python floats/ints are embedded as exact rationals `ℚ` /
integers `ℤ`; Python's `round` (banker's rounding, round-half-to-even) is
embedded as `pyRound`.
-/

set_option maxHeartbeats 1000000

/-- Python 3 `round` on an exact value: round to nearest, ties to even. -/
def pyRound (q : ℚ) : ℤ :=
  let f := ⌊q⌋
  let r := q - f
  if r < 1/2 then f
  else if 1/2 < r then f + 1
  else if f % 2 = 0 then f else f + 1

/-- A physical / voxel 3-vector with exact rational components. -/
structure Vec3 where
  x : ℚ
  y : ℚ
  z : ℚ
deriving DecidableEq, Repr

/-- Row-major flat 3x3 direction-cosine matrix, indexed 0..8 exactly as
`sitk_img.GetDirection()` is indexed in `shared/dicom_io.py`. -/
structure Mat3 where
  m0 : ℚ
  m1 : ℚ
  m2 : ℚ
  m3 : ℚ
  m4 : ℚ
  m5 : ℚ
  m6 : ℚ
  m7 : ℚ
  m8 : ℚ
deriving DecidableEq, Repr

/-- The geometry dictionary built by `load_dicom_series`: origin, spacing
and direction (`meta_dict` in `shared/dicom_io.py`). -/
structure Meta where
  origin : Vec3
  spacing : Vec3
  direction : Mat3
deriving DecidableEq, Repr

/-- `shared/dicom_io.py::voxel_to_mm` — voxel (i,j,k) to mm (x,y,z):
scale by spacing, apply the direction matrix, add the origin. -/
def voxel_to_mm (i j k : ℚ) (meta : Meta) : ℚ × ℚ × ℚ :=
  let vx := i * meta.spacing.x
  let vy := j * meta.spacing.y
  let vz := k * meta.spacing.z
  let dx := meta.direction.m0 * vx + meta.direction.m1 * vy + meta.direction.m2 * vz
  let dy := meta.direction.m3 * vx + meta.direction.m4 * vy + meta.direction.m5 * vz
  let dz := meta.direction.m6 * vx + meta.direction.m7 * vy + meta.direction.m8 * vz
  (meta.origin.x + dx, meta.origin.y + dy, meta.origin.z + dz)

/-- `shared/dicom_io.py::mm_to_voxel` — mm (x,y,z) to voxel (i,j,k):
subtract the origin, apply the transposed direction matrix, divide by
spacing, then round each component with `int(round(...))`. -/
def mm_to_voxel (x y z : ℚ) (meta : Meta) : ℤ × ℤ × ℤ :=
  let px := x - meta.origin.x
  let py := y - meta.origin.y
  let pz := z - meta.origin.z
  let rx := meta.direction.m0 * px + meta.direction.m3 * py + meta.direction.m6 * pz
  let ry := meta.direction.m1 * px + meta.direction.m4 * py + meta.direction.m7 * pz
  let rz := meta.direction.m2 * px + meta.direction.m5 * py + meta.direction.m8 * pz
  (pyRound (rx / meta.spacing.x), pyRound (ry / meta.spacing.y), pyRound (rz / meta.spacing.z))

/-- Modelled from the spec: the continuous (unrounded) inverse transform
the specification describes for `mmToVoxel` — transposed direction applied
to (mm − origin), divided componentwise by spacing.  Used to compare the
spec's words with the source's `mm_to_voxel`. -/
def mmToVoxelCont (x y z : ℚ) (meta : Meta) : ℚ × ℚ × ℚ :=
  let px := x - meta.origin.x
  let py := y - meta.origin.y
  let pz := z - meta.origin.z
  let rx := meta.direction.m0 * px + meta.direction.m3 * py + meta.direction.m6 * pz
  let ry := meta.direction.m1 * px + meta.direction.m4 * py + meta.direction.m7 * pz
  let rz := meta.direction.m2 * px + meta.direction.m5 * py + meta.direction.m8 * pz
  (rx / meta.spacing.x, ry / meta.spacing.y, rz / meta.spacing.z)

/-- The geometry invariant stated by the spec: the columns of the 3x3
direction matrix are orthonormal. -/
def colsOrthonormal (d : Mat3) : Prop :=
  d.m0 * d.m0 + d.m3 * d.m3 + d.m6 * d.m6 = 1 ∧
  d.m1 * d.m1 + d.m4 * d.m4 + d.m7 * d.m7 = 1 ∧
  d.m2 * d.m2 + d.m5 * d.m5 + d.m8 * d.m8 = 1 ∧
  d.m0 * d.m1 + d.m3 * d.m4 + d.m6 * d.m7 = 0 ∧
  d.m0 * d.m2 + d.m3 * d.m5 + d.m6 * d.m8 = 0 ∧
  d.m1 * d.m2 + d.m4 * d.m5 + d.m7 * d.m8 = 0

instance (d : Mat3) : Decidable (colsOrthonormal d) := by
  unfold colsOrthonormal; infer_instance

/-- Strictly positive spacing components (spec geometry invariant). -/
def spacingPos (meta : Meta) : Prop :=
  0 < meta.spacing.x ∧ 0 < meta.spacing.y ∧ 0 < meta.spacing.z

instance (meta : Meta) : Decidable (spacingPos meta) := by
  unfold spacingPos; infer_instance

theorem pyRound_intCast (n : ℤ) : pyRound (n : ℚ) = n := by
  unfold pyRound
  have h : ⌊(n : ℚ)⌋ = n := Int.floor_intCast n
  simp [h]

/-- The identity direction matrix (an orthonormal witness). -/
def idMat : Mat3 := ⟨1, 0, 0, 0, 1, 0, 0, 0, 1⟩

/-- A concrete geometry used by witnesses: identity direction,
non-isotropic positive spacing, nonzero origin. -/
def metaW : Meta := ⟨⟨10, -5, 7⟩, ⟨1/2, 1/2, 3⟩, idMat⟩

theorem div_pyRound_eq (a b : ℚ) (n : ℤ) (hb : b ≠ 0) (h : a = n * b) :
    pyRound (a / b) = n := by
  subst h
  rw [mul_div_cancel_right₀ _ hb, pyRound_intCast]

/-- C1: for every geometry with orthonormal direction columns and strictly
positive spacing, and every (integer) voxel triple, `mm_to_voxel` applied
to `voxel_to_mm` recovers the voxel triple exactly (the exact-arithmetic
form of the floating-point round-trip law). -/
theorem C1_coordinate_round_trip (meta : Meta) (hd : colsOrthonormal meta.direction)
    (hs : spacingPos meta) (i j k : ℤ) :
    mm_to_voxel (voxel_to_mm i j k meta).1 (voxel_to_mm i j k meta).2.1
      (voxel_to_mm i j k meta).2.2 meta = (i, j, k) := by
  obtain ⟨h1, h2, h3, h4, h5, h6⟩ := hd
  obtain ⟨hx, hy, hz⟩ := hs
  unfold voxel_to_mm mm_to_voxel
  dsimp only
  rw [Prod.mk.injEq, Prod.mk.injEq]
  refine ⟨?_, ?_, ?_⟩
  · refine div_pyRound_eq _ _ _ hx.ne' ?_
    linear_combination ((i : ℚ) * meta.spacing.x) * h1 +
      ((j : ℚ) * meta.spacing.y) * h4 + ((k : ℚ) * meta.spacing.z) * h5
  · refine div_pyRound_eq _ _ _ hy.ne' ?_
    linear_combination ((i : ℚ) * meta.spacing.x) * h4 +
      ((j : ℚ) * meta.spacing.y) * h2 + ((k : ℚ) * meta.spacing.z) * h6
  · refine div_pyRound_eq _ _ _ hz.ne' ?_
    linear_combination ((i : ℚ) * meta.spacing.x) * h5 +
      ((j : ℚ) * meta.spacing.y) * h6 + ((k : ℚ) * meta.spacing.z) * h3

theorem C1_coordinate_round_trip_witness :
    colsOrthonormal metaW.direction ∧ spacingPos metaW ∧
      mm_to_voxel (voxel_to_mm 5 6 7 metaW).1 (voxel_to_mm 5 6 7 metaW).2.1
        (voxel_to_mm 5 6 7 metaW).2.2 metaW = (5, 6, 7) :=
  ⟨by norm_num [colsOrthonormal, metaW, idMat], by norm_num [spacingPos, metaW],
    C1_coordinate_round_trip metaW (by norm_num [colsOrthonormal, metaW, idMat])
      (by norm_num [spacingPos, metaW]) 5 6 7⟩

/-- Trivial geometry (identity direction, unit spacing, zero origin). -/
def metaId : Meta := ⟨⟨0, 0, 0⟩, ⟨1, 1, 1⟩, idMat⟩

/-- C2 counterexample: the claim says `mm_to_voxel` returns the continuous
(not rounded) voxel coordinate.  At the point (0.4, 0, 0) with identity
geometry the continuous coordinate is 0.4 but the code returns the rounded
integer 0, so the claim is false. -/
theorem C2_counterexample :
    ((mm_to_voxel (2/5) 0 0 metaId).1 : ℚ) ≠ (mmToVoxelCont (2/5) 0 0 metaId).1 := by
  have h1 : (mm_to_voxel (2/5) 0 0 metaId).1 = 0 := by
    show pyRound _ = 0
    unfold pyRound
    norm_num [metaId, idMat]
  have h2 : (mmToVoxelCont (2/5) 0 0 metaId).1 = 2/5 := by
    unfold mmToVoxelCont
    norm_num [metaId, idMat]
  rw [h1, h2]
  norm_num

/-- C2 amended: `mm_to_voxel` computes the transposed direction matrix
applied to (mm − origin), divided componentwise by spacing, and then
rounds each component to the nearest integer (Python `int(round(...))`,
ties to even); i.e. it is the componentwise rounding of the continuous
inverse transform, not the continuous value itself. -/
theorem C2_mm_to_voxel_rounds_continuous (x y z : ℚ) (meta : Meta) :
    mm_to_voxel x y z meta =
      (pyRound (mmToVoxelCont x y z meta).1, pyRound (mmToVoxelCont x y z meta).2.1,
        pyRound (mmToVoxelCont x y z meta).2.2) := rfl

/-- The optional `thresholds.json` contents consumed by
`viewer/inference_bridge.py` (`bins` ascending boundaries, `labels`). -/
structure ThresholdsCfg where
  bins : List ℚ
  labels : List String
deriving DecidableEq, Repr

/-- The single-threshold fallback of `predict_for_export_folder`:
`"Positivo" if prob >= thr else "Negativo"`. -/
def fallbackCategory (thr prob : ℚ) : String :=
  if prob ≥ thr then "Positivo" else "Negativo"

/-- `viewer/inference_bridge.py::predict_for_export_folder`, risk
categorization block: with a configured table whose label count is one
more than the bin count, return `labels[0]` when `prob < bins[0]`, else
`labels[1]` when there is a single bin or `prob < bins[1]`, else
`labels[-1]`; without a (valid) table, fall back to the single threshold.
`none` models the uncaught `IndexError` Python raises when `bins` is
empty yet the length test passes. -/
def risk_category (cfg : Option ThresholdsCfg) (thr prob : ℚ) : Option String :=
  match cfg with
  | some c =>
    if c.labels.length = c.bins.length + 1 then
      match c.bins, c.labels with
      | [], _ => none
      | [b0], l0 :: l1 :: _ =>
        some (if prob < b0 then l0 else l1)
      | b0 :: b1 :: _, l0 :: l1 :: ltail =>
        some (if prob < b0 then l0
              else if prob < b1 then l1
              else (l0 :: l1 :: ltail).getLastD "")
      | _, _ => none
    else some (fallbackCategory thr prob)
  | none => some (fallbackCategory thr prob)

/-- Modelled from the claim's words: the label of the bin that contains
the probability — index = number of boundaries at or below `prob`
(`labels[0]` below the first boundary, `labels[-1]` at or above the
last, the matching interior bin's label otherwise, for ascending bins). -/
def binLabelSpec (bins : List ℚ) (labels : List String) (prob : ℚ) : Option String :=
  labels.get? (bins.countP (fun b => decide (b ≤ prob)))

/-- The three-bin table showing the divergence. -/
def cfgCexC3 : ThresholdsCfg := ⟨[2/10, 4/10, 6/10], ["A", "B", "C", "D"]⟩

/-- C3 counterexample: with bins [0.2, 0.4, 0.6] and labels
[A, B, C, D] (a table the claim covers), probability 0.5 lies in the
interior bin [0.4, 0.6) whose label is "C", but the code only consults
the first two boundaries and assigns the last label "D". -/
theorem C3_counterexample :
    risk_category (some cfgCexC3) (1/2) (1/2) = some "D" ∧
      binLabelSpec cfgCexC3.bins cfgCexC3.labels (1/2) = some "C" ∧
      ("D" : String) ≠ "C" := by
  refine ⟨?_, ?_, by decide⟩
  · show (if (1:ℚ)/2 < 2/10 then "A" else if (1:ℚ)/2 < 4/10 then "B"
      else (["A", "B", "C", "D"] : List String).getLastD "") = some "D"
    norm_num
  · show (["A", "B", "C", "D"] : List String).get?
      (([2/10, 4/10, 6/10] : List ℚ).countP (fun b => decide (b ≤ 1/2))) = some "C"
    norm_num [List.countP_cons]

/-- C3 amended: the claimed three-way binning holds for every configured
table with at most two ascending bins (the shapes the code handles,
including the spec's [0.3, 0.6] / Low-Mid-High example); and with no
table configured the category is "Positivo" iff the probability is at
or above the single fallback threshold, "Negativo" otherwise. -/
theorem C3_risk_categorization (c : ThresholdsCfg) (thr p : ℚ)
    (hlen : c.labels.length = c.bins.length + 1)
    (hsort : c.bins.Chain' (· ≤ ·)) (hle : c.bins.length ≤ 2) (hne : c.bins ≠ []) :
    risk_category (some c) thr p = binLabelSpec c.bins c.labels p ∧
      (∀ q : ℚ, risk_category none thr q = some "Positivo" ↔ thr ≤ q) ∧
      (∀ q : ℚ, risk_category none thr q = some "Negativo" ↔ q < thr) := by
  refine ⟨?_, ?_, ?_⟩
  · obtain ⟨bins, labels⟩ := c
    dsimp only at hlen hsort hle hne ⊢
    match bins, labels, hlen with
    | [], _, _ => exact absurd rfl hne
    | [b0], [l0, l1], _ =>
      by_cases h : p < b0
      · have hb : ¬ b0 ≤ p := not_le.mpr h
        simp [risk_category, binLabelSpec, h, hb]
      · have hb : b0 ≤ p := not_lt.mp h
        simp [risk_category, binLabelSpec, h, hb]
    | [b0, b1], [l0, l1, l2], _ =>
      have hb01 : b0 ≤ b1 := by
        simpa using hsort
      by_cases h0 : p < b0
      · have hc0 : ¬ b0 ≤ p := not_le.mpr h0
        have hc1 : ¬ b1 ≤ p := not_le.mpr (lt_of_lt_of_le h0 hb01)
        simp [risk_category, binLabelSpec, h0, hc0, hc1]
      · have hc0 : b0 ≤ p := not_lt.mp h0
        by_cases h1 : p < b1
        · have hc1 : ¬ b1 ≤ p := not_le.mpr h1
          simp [risk_category, binLabelSpec, h0, h1, hc0, hc1]
        · have hc1 : b1 ≤ p := not_lt.mp h1
          simp [risk_category, binLabelSpec, h0, h1, hc0, hc1]
    | b0 :: b1 :: b2 :: rest, _, _ => simp at hle
  · intro q
    by_cases h : thr ≤ q <;>
      simp [risk_category, fallbackCategory, ge_iff_le, h, not_lt]
  · intro q
    by_cases h : thr ≤ q
    · simp [risk_category, fallbackCategory, ge_iff_le, h, not_lt]
    · simp only [risk_category, fallbackCategory, ge_iff_le, h, if_false,
        Option.some.injEq]
      simp [not_le.mp h]

/-- The spec's example table: bins [0.3, 0.6], labels Low/Mid/High. -/
def cfgLMH : ThresholdsCfg := ⟨[3/10, 6/10], ["Low", "Mid", "High"]⟩

theorem C3_risk_categorization_witness :
    cfgLMH.labels.length = cfgLMH.bins.length + 1 ∧
      cfgLMH.bins.Chain' (· ≤ ·) ∧ cfgLMH.bins.length ≤ 2 ∧ cfgLMH.bins ≠ [] ∧
      (risk_category (some cfgLMH) (1/2) (45/100) =
          binLabelSpec cfgLMH.bins cfgLMH.labels (45/100) ∧
        (∀ q : ℚ, risk_category none (1/2) q = some "Positivo" ↔ 1/2 ≤ q) ∧
        (∀ q : ℚ, risk_category none (1/2) q = some "Negativo" ↔ q < 1/2)) :=
  ⟨by simp [cfgLMH], by norm_num [cfgLMH, List.chain'_cons, List.chain'_singleton],
    by simp [cfgLMH], by simp [cfgLMH],
    C3_risk_categorization cfgLMH (1/2) (45/100) (by simp [cfgLMH])
      (by norm_num [cfgLMH, List.chain'_cons, List.chain'_singleton])
      (by simp [cfgLMH]) (by simp [cfgLMH])⟩

/-- ROI validation classification (viewer HUD statuses). -/
inductive RoiStatus
| OK
| PARTIAL
| OUT
deriving DecidableEq, Repr

/-- A confirmed ROI as stored in `self.rois` by `viewer/viewer_app.py`:
string id `L<n>`, durable mm-space center and radius, the series it was
confirmed on, and the view-dependent voxel center cache. -/
structure Roi where
  id : String
  center_mm : Vec3
  radius_mm : ℚ
  center_voxel : ℤ × ℤ × ℤ
  series_uid : String
deriving DecidableEq, Repr

/-- Per-ROI body of
`viewer/viewer_app.py::validate_rois_for_current_series`: convert the mm
center to a voxel in the current geometry; OUT when the center voxel is
outside the grid `(sz_k, sz_j, sz_i) = np_vol.shape`; otherwise PARTIAL
when the per-axis bounding box `center ± radius_mm/spacing_axis` leaves
the grid, else OK. -/
def validate_roi (meta : Meta) (szK szJ szI : ℕ) (roi : Roi) : RoiStatus :=
  let v := mm_to_voxel roi.center_mm.x roi.center_mm.y roi.center_mm.z meta
  let vi := v.1
  let vj := v.2.1
  let vk := v.2.2
  if 0 ≤ vi ∧ vi < (szI : ℤ) ∧ 0 ≤ vj ∧ vj < (szJ : ℤ) ∧ 0 ≤ vk ∧ vk < (szK : ℤ) then
    let ri := roi.radius_mm / meta.spacing.x
    let rj := roi.radius_mm / meta.spacing.y
    let rk := roi.radius_mm / meta.spacing.z
    if (vi : ℚ) - ri < 0 ∨ (vi : ℚ) + ri ≥ (szI : ℚ) ∨
        (vj : ℚ) - rj < 0 ∨ (vj : ℚ) + rj ≥ (szJ : ℚ) ∨
        (vk : ℚ) - rk < 0 ∨ (vk : ℚ) + rk ≥ (szK : ℚ) then
      RoiStatus.PARTIAL
    else
      RoiStatus.OK
  else
    RoiStatus.OUT

/-- `validate_rois_for_current_series` over the ROI list: the status map
`{lesion_id: status}` in list form. -/
def validate_rois (meta : Meta) (szK szJ szI : ℕ) (rois : List Roi) :
    List (String × RoiStatus) :=
  rois.map (fun r => (r.id, validate_roi meta szK szJ szI r))

/-- Claim C4's first condition: the ROI's mm center maps to a voxel
inside `[0, size)` on every axis. -/
def roiCenterInside (meta : Meta) (szK szJ szI : ℕ) (roi : Roi) : Prop :=
  let v := mm_to_voxel roi.center_mm.x roi.center_mm.y roi.center_mm.z meta
  0 ≤ v.1 ∧ v.1 < (szI : ℤ) ∧ 0 ≤ v.2.1 ∧ v.2.1 < (szJ : ℤ) ∧
    0 ≤ v.2.2 ∧ v.2.2 < (szK : ℤ)

/-- Claim C4's second condition: on every axis both
`center − radius_mm/spacing_axis` and `center + radius_mm/spacing_axis`
lie within `[0, size)`. -/
def roiSphereInside (meta : Meta) (szK szJ szI : ℕ) (roi : Roi) : Prop :=
  let v := mm_to_voxel roi.center_mm.x roi.center_mm.y roi.center_mm.z meta
  0 ≤ (v.1 : ℚ) - roi.radius_mm / meta.spacing.x ∧
    (v.1 : ℚ) + roi.radius_mm / meta.spacing.x < (szI : ℚ) ∧
    0 ≤ (v.2.1 : ℚ) - roi.radius_mm / meta.spacing.y ∧
    (v.2.1 : ℚ) + roi.radius_mm / meta.spacing.y < (szJ : ℚ) ∧
    0 ≤ (v.2.2 : ℚ) - roi.radius_mm / meta.spacing.z ∧
    (v.2.2 : ℚ) + roi.radius_mm / meta.spacing.z < (szK : ℚ)

/-- C4: the per-ROI validation is exactly the claimed trichotomy — OUT
iff the mm center maps outside `[0, size)` on some axis; OK iff the
center is inside and the whole per-axis radius box is within bounds;
PARTIAL in the remaining case. -/
theorem C4_roi_validation (meta : Meta) (szK szJ szI : ℕ) (roi : Roi) :
    (validate_roi meta szK szJ szI roi = RoiStatus.OUT ↔
        ¬ roiCenterInside meta szK szJ szI roi) ∧
      (validate_roi meta szK szJ szI roi = RoiStatus.OK ↔
        roiCenterInside meta szK szJ szI roi ∧ roiSphereInside meta szK szJ szI roi) ∧
      (validate_roi meta szK szJ szI roi = RoiStatus.PARTIAL ↔
        roiCenterInside meta szK szJ szI roi ∧ ¬ roiSphereInside meta szK szJ szI roi) := by
  unfold validate_roi roiCenterInside roiSphereInside
  dsimp only
  split_ifs with hc hp
  · have hS : ¬ (0 ≤ ((mm_to_voxel roi.center_mm.x roi.center_mm.y roi.center_mm.z meta).1 : ℚ) -
        roi.radius_mm / meta.spacing.x ∧
        ((mm_to_voxel roi.center_mm.x roi.center_mm.y roi.center_mm.z meta).1 : ℚ) +
          roi.radius_mm / meta.spacing.x < (szI : ℚ) ∧
        0 ≤ ((mm_to_voxel roi.center_mm.x roi.center_mm.y roi.center_mm.z meta).2.1 : ℚ) -
          roi.radius_mm / meta.spacing.y ∧
        ((mm_to_voxel roi.center_mm.x roi.center_mm.y roi.center_mm.z meta).2.1 : ℚ) +
          roi.radius_mm / meta.spacing.y < (szJ : ℚ) ∧
        0 ≤ ((mm_to_voxel roi.center_mm.x roi.center_mm.y roi.center_mm.z meta).2.2 : ℚ) -
          roi.radius_mm / meta.spacing.z ∧
        ((mm_to_voxel roi.center_mm.x roi.center_mm.y roi.center_mm.z meta).2.2 : ℚ) +
          roi.radius_mm / meta.spacing.z < (szK : ℚ)) := by
      rintro ⟨s1, s2, s3, s4, s5, s6⟩
      rcases hp with h | h | h | h | h | h <;> linarith
    exact ⟨iff_of_false (by simp) (not_not_intro hc),
      iff_of_false (by simp) (fun h => hS h.2),
      iff_of_true rfl ⟨hc, hS⟩⟩
  · push_neg at hp
    exact ⟨iff_of_false (by simp) (not_not_intro hc),
      iff_of_true rfl ⟨hc, hp⟩,
      iff_of_false (by simp) (fun h => h.2 hp)⟩
  · exact ⟨iff_of_true rfl hc,
      iff_of_false (by simp) (fun h => hc h.1),
      iff_of_false (by simp) (fun h => hc h.1)⟩

/-- A decoded volume as cached by the viewer: the numpy array shape
`(sz_k, sz_j, sz_i)` plus its geometry (the `sitk_img` handle itself is
irrelevant to the session logic). -/
structure Volume where
  shape : ℕ × ℕ × ℕ
  meta : Meta
deriving DecidableEq, Repr

/-- The series cache state of `ViewerApp.__init__`: the `_series_cache`
dict (association list with unique keys), the `_cache_order` LRU list
(front = least recently used), and `_max_cache_size`. -/
structure SeriesCache (κ : Type) (α : Type) where
  cache : List (κ × α)
  order : List κ
  maxSize : ℕ

/-- Dict lookup `cache_key in self._series_cache` /
`self._series_cache[cache_key]`. -/
def cacheFind [DecidableEq κ] (c : List (κ × α)) (k : κ) : Option α :=
  match c.find? (fun e => decide (e.1 = k)) with
  | some e => some e.2
  | none => none

/-- The cache block of `viewer/viewer_app.py::load_current_series`
(lines 589-616): on hit, move the key to the back of `_cache_order`; on
miss, insert the loaded volume, append the key, and when the order list
exceeds `_max_cache_size`, pop its front and delete that dict entry. -/
def cacheAccess [DecidableEq κ] (load : α) (c : SeriesCache κ α) (k : κ) :
    SeriesCache κ α × α :=
  match cacheFind c.cache k with
  | some v => ({ c with order := c.order.erase k ++ [k] }, v)
  | none =>
    let cache := c.cache ++ [(k, load)]
    let order := c.order ++ [k]
    if order.length > c.maxSize then
      match order with
      | [] => ({ c with cache := cache, order := order }, load)
      | oldest :: rest =>
        ({ c with cache := cache.eraseP (fun e => decide (e.1 = oldest)), order := rest },
          load)
    else ({ c with cache := cache, order := order }, load)

/-- Folding a sequence of key accesses into the cache. -/
def insertAll [DecidableEq κ] (load : κ → α) (c : SeriesCache κ α) (ks : List κ) :
    SeriesCache κ α :=
  ks.foldl (fun c k => (cacheAccess (load k) c k).1) c

/-- Cache coherency: the dict keys are the order list up to permutation. -/
def cacheWF (c : SeriesCache κ α) : Prop :=
  List.Perm (c.cache.map Prod.fst) c.order

/-- The empty viewer cache: capacity 6, keyed by (case name, series
index) — `ViewerApp.__init__` lines 84-87. -/
def initSeriesCache : SeriesCache (String × ℕ) Volume := ⟨[], [], 6⟩

theorem cacheFind_eq_none_iff [DecidableEq κ] (c : List (κ × α)) (k : κ) :
    cacheFind c k = none ↔ k ∉ c.map Prod.fst := by
  have key : (List.find? (fun e => decide (e.1 = k)) c = none) ↔ k ∉ c.map Prod.fst := by
    rw [List.find?_eq_none]
    constructor
    · intro h hk
      obtain ⟨e, he, hk'⟩ := List.mem_map.mp hk
      exact h e he (by simp [hk'])
    · intro h e he hd
      have he1 : e.1 = k := by simpa using hd
      exact h (List.mem_map.mpr ⟨e, he, he1⟩)
  unfold cacheFind
  rw [← key]
  rcases hf : List.find? (fun e => decide (e.1 = k)) c with _ | e <;> simp [hf]

theorem map_fst_eraseP_key [DecidableEq κ] (l : List (κ × α)) (a : κ) :
    (l.eraseP (fun e => decide (e.1 = a))).map Prod.fst = (l.map Prod.fst).erase a := by
  induction l with
  | nil => simp
  | cons e t ih =>
    by_cases h : e.1 = a
    · subst h
      rw [List.eraseP_cons_of_pos (by simp), List.map_cons, List.erase_cons_head]
    · rw [List.eraseP_cons_of_neg (by simpa using h), List.map_cons, List.map_cons,
        List.erase_cons_tail (by simpa using h), ih]

theorem cacheFind_mem_of_some [DecidableEq κ] {c : List (κ × α)} {k : κ} {v : α}
    (hf : cacheFind c k = some v) : k ∈ c.map Prod.fst := by
  by_contra h
  rw [(cacheFind_eq_none_iff c k).mpr h] at hf
  exact Option.noConfusion hf

theorem cacheAccess_maxSize [DecidableEq κ] (load : α) (c : SeriesCache κ α) (k : κ) :
    (cacheAccess load c k).1.maxSize = c.maxSize := by
  unfold cacheAccess
  rcases hf : cacheFind c.cache k with _ | v
  · dsimp only
    split_ifs with hlen
    · split <;> rfl
    · rfl
  · rfl

theorem cacheAccess_wf [DecidableEq κ] (load : α) (c : SeriesCache κ α) (k : κ)
    (hwf : cacheWF c) : cacheWF (cacheAccess load c k).1 := by
  unfold cacheWF cacheAccess
  rcases hf : cacheFind c.cache k with _ | v
  · dsimp only
    split_ifs with hlen
    · split
      · rename_i heq
        exact absurd heq (by simp)
      · rename_i oldest rest heq
        dsimp only
        rw [map_fst_eraseP_key, List.map_append]
        have h1 : List.Perm ((c.cache.map Prod.fst ++ [k]).erase oldest)
            ((c.order ++ [k]).erase oldest) := (hwf.append_right [k]).erase oldest
        rw [heq, List.erase_cons_head] at h1
        simpa using h1
    · dsimp only
      rw [List.map_append]
      exact hwf.append_right [k]
  · dsimp only
    have hk : k ∈ c.order := hwf.mem_iff.mp (cacheFind_mem_of_some hf)
    exact hwf.trans ((List.perm_cons_erase hk).trans
      (@List.perm_append_comm _ [k] (c.order.erase k)))

theorem cacheAccess_order_len [DecidableEq κ] (load : α) (c : SeriesCache κ α) (k : κ)
    (hwf : cacheWF c) (hlen : c.order.length ≤ c.maxSize) :
    (cacheAccess load c k).1.order.length ≤ c.maxSize := by
  unfold cacheAccess
  rcases hf : cacheFind c.cache k with _ | v
  · dsimp only
    split_ifs with hgt
    · split
      · rename_i heq
        exact absurd heq (by simp)
      · rename_i oldest rest heq
        have := congrArg List.length heq
        simp only [List.length_append, List.length_cons, List.length_nil] at this
        simpa using by omega
    · simp only [List.length_append, List.length_cons, List.length_nil] at hgt ⊢
      omega
  · dsimp only
    have hk : k ∈ c.order := hwf.mem_iff.mp (cacheFind_mem_of_some hf)
    have h1 : (c.order.erase k).length = c.order.length - 1 := List.length_erase_of_mem hk
    have h2 : 1 ≤ c.order.length := List.length_pos.mpr (List.ne_nil_of_mem hk)
    simp only [List.length_append, List.length_cons, List.length_nil, h1]
    omega

theorem cacheAccess_cache_len [DecidableEq κ] (load : α) (c : SeriesCache κ α) (k : κ)
    (hwf : cacheWF c) (hlen : c.order.length ≤ c.maxSize) :
    (cacheAccess load c k).1.cache.length ≤ c.maxSize := by
  have hwf' := cacheAccess_wf load c k hwf
  have h1 : (cacheAccess load c k).1.cache.length =
      (cacheAccess load c k).1.order.length := by
    have := hwf'.length_eq
    simpa using this
  rw [h1]
  exact cacheAccess_order_len load c k hwf hlen

theorem cacheAccess_hit [DecidableEq κ] (load : α) (c : SeriesCache κ α) (k : κ) (v : α)
    (hf : cacheFind c.cache k = some v) :
    (cacheAccess load c k).1.order = c.order.erase k ++ [k] ∧
      (cacheAccess load c k).1.order.getLast? = some k ∧
      (cacheAccess load c k).1.cache = c.cache ∧ (cacheAccess load c k).2 = v := by
  unfold cacheAccess
  rw [hf]
  refine ⟨rfl, ?_, rfl, rfl⟩
  dsimp only
  rw [List.getLast?_append]
  rfl

theorem insertAll_no_evict [DecidableEq κ] (load : κ → α) :
    ∀ (ks : List κ) (c : SeriesCache κ α),
      c.order.length + ks.length ≤ c.maxSize → ks.Nodup →
      (∀ k ∈ ks, cacheFind c.cache k = none) →
      insertAll load c ks =
        ⟨c.cache ++ ks.map (fun k => (k, load k)), c.order ++ ks, c.maxSize⟩ := by
  intro ks
  induction ks with
  | nil =>
    intro c _ _ _
    cases c
    simp [insertAll]
  | cons k t ih =>
    intro c hlen hnd hfresh
    have hk : cacheFind c.cache k = none := hfresh k (by simp)
    have hstep : (cacheAccess (load k) c k).1 =
        ⟨c.cache ++ [(k, load k)], c.order ++ [k], c.maxSize⟩ := by
      unfold cacheAccess
      rw [hk]
      dsimp only
      rw [if_neg (by simp only [List.length_append, List.length_cons, List.length_nil,
        List.length_cons] at hlen ⊢; omega)]
    have hrec : insertAll load c (k :: t) =
        insertAll load (cacheAccess (load k) c k).1 t := by
      unfold insertAll
      rw [List.foldl_cons]
    rw [hrec, hstep, ih]
    · simp
    · simp only [List.length_append, List.length_cons, List.length_nil]
      simp only [List.length_cons] at hlen
      omega
    · exact hnd.of_cons
    · intro k' hk'
      rw [cacheFind_eq_none_iff]
      simp only [List.map_append, List.mem_append, List.map_cons, List.map_nil]
      rintro (h | h)
      · exact absurd h ((cacheFind_eq_none_iff _ _).mp (hfresh k' (by simp [hk'])))
      · have : k' = k := by simpa using h
        subst this
        exact (List.nodup_cons.mp hnd).1 hk'

theorem insertAll_evicts_lru [DecidableEq κ] (load : κ → α) (N : ℕ) (hN : 1 ≤ N)
    (k0 : κ) (rest : List κ) (hlen : rest.length = N) (hnd : (k0 :: rest).Nodup) :
    (insertAll load ⟨[], [], N⟩ (k0 :: rest)).order = rest ∧
      (insertAll load ⟨[], [], N⟩ (k0 :: rest)).cache.map Prod.fst = rest := by
  have hne : rest ≠ [] := by
    intro h
    rw [h] at hlen
    simp at hlen
    omega
  obtain ⟨init, kl, hrest⟩ : ∃ init kl, rest = init ++ [kl] :=
    ⟨rest.dropLast, rest.getLast hne, (List.dropLast_append_getLast hne).symm⟩
  subst hrest
  have hinitlen : init.length + 1 = N := by simpa using hlen
  have hnd1 : (k0 :: init).Nodup := by
    refine List.Nodup.sublist ?_ hnd
    exact List.Sublist.cons₂ k0 (List.sublist_append_left init [kl])
  have hpre : insertAll load ⟨[], [], N⟩ (k0 :: init) =
      ⟨(k0 :: init).map (fun k => (k, load k)), k0 :: init, N⟩ := by
    have h := insertAll_no_evict load (k0 :: init) ⟨[], [], N⟩
      (by simp only [List.length_cons, List.length_nil]; omega) hnd1
      (by intro k _; rfl)
    simpa using h
  have hsplit : insertAll load ⟨[], [], N⟩ (k0 :: (init ++ [kl])) =
      (cacheAccess (load kl) (insertAll load ⟨[], [], N⟩ (k0 :: init)) kl).1 := by
    unfold insertAll
    rw [show k0 :: (init ++ [kl]) = (k0 :: init) ++ [kl] by simp, List.foldl_append]
    rfl
  have hkl_not : kl ∉ k0 :: init := by
    intro hmem
    have hnd2 : ((k0 :: init) ++ [kl]).Nodup := by
      rw [List.cons_append]
      exact hnd
    rw [List.nodup_append] at hnd2
    exact hnd2.2.2 hmem (by simp)
  have hfkl : cacheFind ((k0 :: init).map (fun k => (k, load k))) kl = none := by
    rw [cacheFind_eq_none_iff]
    simp only [List.map_map]
    intro hmem
    apply hkl_not
    simpa using hmem
  rw [hsplit, hpre]
  unfold cacheAccess
  rw [hfkl]
  dsimp only
  rw [if_pos (by simp only [List.length_append, List.length_cons, List.length_nil]; omega)]
  constructor
  · rfl
  · show (((k0 :: init).map (fun k => (k, load k)) ++ [(kl, load kl)]).eraseP
      (fun e => decide (e.1 = k0))).map Prod.fst = init ++ [kl]
    rw [map_fst_eraseP_key]
    have hcomp : ((k0 :: init).map (fun k => (k, load k)) ++ [(kl, load kl)]).map Prod.fst
        = (k0 :: init) ++ [kl] := by
      simp only [List.map_append, List.map_map, List.map_cons, List.map_nil]
      rw [show (Prod.fst ∘ fun k => (k, load k)) = fun k : κ => k from rfl]
      simp
    rw [hcomp, List.cons_append, List.erase_cons_head]

/-- C5: the volume cache is a strict LRU keyed by (case, series index)
with default capacity 6: a (coherent, within-capacity) cache never
exceeds its capacity after any access and stays coherent; re-accessing a
cached key leaves the entries unchanged and moves the key to
most-recently-used (the back of the order list); and inserting N+1
distinct keys into an empty cache of capacity N evicts exactly the
least-recently-accessed (first) key, retaining the others in order. -/
theorem C5_lru_cache_behavior (κ α : Type) [DecidableEq κ]
    (load : α) (c chit : SeriesCache κ α) (k khit : κ) (v : α)
    (loadf : κ → α) (N : ℕ) (k0 : κ) (rest : List κ)
    (hwf : cacheWF c) (hlen : c.order.length ≤ c.maxSize)
    (hhit : cacheFind chit.cache khit = some v)
    (hN : 1 ≤ N) (hrl : rest.length = N) (hnd : (k0 :: rest).Nodup) :
    initSeriesCache.maxSize = 6 ∧
      ((cacheAccess load c k).1.order.length ≤ c.maxSize ∧
        (cacheAccess load c k).1.cache.length ≤ c.maxSize ∧
        cacheWF (cacheAccess load c k).1 ∧
        (cacheAccess load c k).1.maxSize = c.maxSize) ∧
      ((cacheAccess load chit khit).1.order = chit.order.erase khit ++ [khit] ∧
        (cacheAccess load chit khit).1.order.getLast? = some khit ∧
        (cacheAccess load chit khit).1.cache = chit.cache) ∧
      ((insertAll loadf ⟨[], [], N⟩ (k0 :: rest)).order = rest ∧
        (insertAll loadf ⟨[], [], N⟩ (k0 :: rest)).cache.map Prod.fst = rest) := by
  refine ⟨rfl, ⟨?_, ?_, ?_, ?_⟩, ?_, ?_⟩
  · exact cacheAccess_order_len load c k hwf hlen
  · exact cacheAccess_cache_len load c k hwf hlen
  · exact cacheAccess_wf load c k hwf
  · exact cacheAccess_maxSize load c k
  · obtain ⟨h1, h2, h3, _⟩ := cacheAccess_hit load chit khit v hhit
    exact ⟨h1, h2, h3⟩
  · exact insertAll_evicts_lru loadf N hN k0 rest hrl hnd

/-- Concrete cache used by the C5 witness. -/
def cacheW : SeriesCache ℕ ℕ := ⟨[(0, 10)], [0], 2⟩

theorem C5_lru_cache_behavior_witness :
    cacheWF cacheW ∧ cacheW.order.length ≤ cacheW.maxSize ∧
      cacheFind cacheW.cache 0 = some 10 ∧ (1 : ℕ) ≤ 2 ∧
      ([1, 2] : List ℕ).length = 2 ∧ ([0, 1, 2] : List ℕ).Nodup ∧
      (insertAll (fun n => 10 * n) ⟨[], [], 2⟩ ([0, 1, 2] : List ℕ)).order = [1, 2] ∧
      (cacheAccess 99 cacheW 0).1.order = [0] := by
  have hwf : cacheWF cacheW := by
    unfold cacheWF cacheW
    exact List.Perm.refl _
  have hlen : cacheW.order.length ≤ cacheW.maxSize := by decide
  have hhit : cacheFind cacheW.cache 0 = some 10 := rfl
  have h := C5_lru_cache_behavior ℕ ℕ 99 cacheW cacheW 1 0 10 (fun n => 10 * n)
    2 0 [1, 2] hwf hlen hhit (by decide) (by decide) (by decide)
  refine ⟨hwf, hlen, hhit, by decide, by decide, by decide, h.2.2.2.1, ?_⟩
  rw [h.2.2.1.1]
  decide

/-- The filesystem observations `viewer/viewer_app.py::discover_workspace`
makes of the selected root: whether `root/SAMPLES` exists as a directory,
the sorted subdirectory names, which subdirectories contain a decodable
DICOM series (`dicom_io.list_case_series` nonempty), and whether the root
itself contains one. -/
structure WorkspaceView where
  samplesSubdirExists : Bool
  subdirs : List String
  subdirHasSeries : String → Bool
  rootHasSeries : Bool

/-- The classification outcome of `discover_workspace`: case A (root
contains a `SAMPLES` subdirectory, multi-case with that container), case
B (root itself is the multi-case container, data root becomes its
parent), case C (single case), case D (invalid workspace: error message
reported, case list left empty). -/
inductive DiscoverOutcome
| samplesRootA
| samplesRootB
| singleCase
| invalid
deriving DecidableEq, Repr

/-- `viewer/viewer_app.py::discover_workspace` (lines 226-281), with the
filesystem abstracted into a `WorkspaceView`: first the `SAMPLES`
subdirectory check, then subdirectories containing decodable series,
then the root itself as a single case, else the invalid-workspace
error. -/
def discover_workspace (w : WorkspaceView) : DiscoverOutcome :=
  if w.samplesSubdirExists then DiscoverOutcome.samplesRootA
  else if w.subdirs.any w.subdirHasSeries then DiscoverOutcome.samplesRootB
  else if w.rootHasSeries then DiscoverOutcome.singleCase
  else DiscoverOutcome.invalid

/-- A root that itself contains a decodable series but also has a child
directory with a decodable series. -/
def wCexC6 : WorkspaceView :=
  ⟨false, ["case1"], fun _ => true, true⟩

/-- C6 counterexample: the claim says a root that itself contains a
decodable series is classified SINGLE_CASE before any multi-case layout
is considered; but for a root that also has a series-bearing child
directory the code classifies it as the multi-case container, not
SINGLE_CASE. -/
theorem C6_counterexample :
    wCexC6.rootHasSeries = true ∧
      discover_workspace wCexC6 = DiscoverOutcome.samplesRootB ∧
      DiscoverOutcome.samplesRootB ≠ DiscoverOutcome.singleCase :=
  ⟨rfl, rfl, by decide⟩

/-- C6 amended: classification priority as implemented — (1) a
subdirectory literally named SAMPLES makes the root a multi-case data
root; (2) else, if any immediate child contains a decodable series, the
root itself is the multi-case container; (3) only otherwise is a root
containing a decodable series classified SINGLE_CASE; (4) and when none
applies discovery reports an explicit invalid-workspace error (empty
case list) rather than silently falling back. -/
theorem C6_discovery_priority (w : WorkspaceView) :
    (discover_workspace w = DiscoverOutcome.samplesRootA ↔
        w.samplesSubdirExists = true) ∧
      (discover_workspace w = DiscoverOutcome.samplesRootB ↔
        w.samplesSubdirExists = false ∧ w.subdirs.any w.subdirHasSeries = true) ∧
      (discover_workspace w = DiscoverOutcome.singleCase ↔
        w.samplesSubdirExists = false ∧ w.subdirs.any w.subdirHasSeries = false ∧
          w.rootHasSeries = true) ∧
      (discover_workspace w = DiscoverOutcome.invalid ↔
        w.samplesSubdirExists = false ∧ w.subdirs.any w.subdirHasSeries = false ∧
          w.rootHasSeries = false) := by
  unfold discover_workspace
  cases h1 : w.samplesSubdirExists <;>
    cases h2 : w.subdirs.any w.subdirHasSeries <;>
    cases h3 : w.rootHasSeries <;>
    simp [h1, h2, h3]

/-- Number of decimal digits (used to reason about `Nat.repr`). -/
def numDigits (n : ℕ) : ℕ :=
  if n < 10 then 1 else numDigits (n / 10) + 1
termination_by n
decreasing_by
  exact Nat.div_lt_self (by omega) (by omega)

theorem digitChar_isDigit (n : ℕ) (h : n < 10) : (Nat.digitChar n).isDigit = true := by
  interval_cases n <;> decide

theorem digitChar_val (n : ℕ) (h : n < 10) :
    (Nat.digitChar n).toNat - Char.toNat (Char.ofNat 48) = n := by
  interval_cases n <;> decide

theorem foldl_toDigitsCore :
    ∀ (fuel n a : ℕ) (ds : List Char), n < fuel →
      (Nat.toDigitsCore 10 fuel n ds).foldl
          (fun m c => m * 10 + (c.toNat - Char.toNat (Char.ofNat 48))) a =
        ds.foldl (fun m c => m * 10 + (c.toNat - Char.toNat (Char.ofNat 48)))
          (a * 10 ^ numDigits n + n) := by
  intro fuel
  induction fuel with
  | zero => intro n a ds h; omega
  | succ m ih =>
    intro n a ds h
    by_cases h10 : n / 10 = 0
    · have hlt : n < 10 := by omega
      have hres : Nat.toDigitsCore 10 (m + 1) n ds = Nat.digitChar (n % 10) :: ds := by
        simp only [Nat.toDigitsCore, h10, if_true]
      rw [hres, List.foldl_cons, digitChar_val (n % 10) (Nat.mod_lt n (by omega))]
      have hmod : n % 10 = n := Nat.mod_eq_of_lt hlt
      have hdig : numDigits n = 1 := by
        rw [numDigits]
        simp [hlt]
      rw [hmod, hdig, pow_one]
    · have hge : 10 ≤ n := by
        by_contra hc
        exact h10 (Nat.div_eq_of_lt (by omega))
      have hres : Nat.toDigitsCore 10 (m + 1) n ds =
          Nat.toDigitsCore 10 m (n / 10) (Nat.digitChar (n % 10) :: ds) := by
        simp only [Nat.toDigitsCore, h10, if_false]
      rw [hres]
      have hfuel : n / 10 < m := by
        have h1 : n / 10 < n := Nat.div_lt_self (by omega) (by omega)
        omega
      rw [ih (n / 10) a (Nat.digitChar (n % 10) :: ds) hfuel, List.foldl_cons,
        digitChar_val (n % 10) (Nat.mod_lt n (by omega))]
      have hdig : numDigits n = numDigits (n / 10) + 1 := by
        rw [numDigits]
        simp [show ¬ n < 10 by omega]
      rw [hdig]
      congr 1
      have hdm : 10 * (n / 10) + n % 10 = n := Nat.div_add_mod n 10
      have hpow : 10 ^ (numDigits (n / 10) + 1) = 10 ^ numDigits (n / 10) * 10 :=
        pow_succ 10 _
      rw [hpow]
      ring_nf
      omega

theorem toDigitsCore_all_isDigit :
    ∀ (fuel n : ℕ) (ds : List Char), (∀ c ∈ ds, c.isDigit = true) →
      ∀ c ∈ Nat.toDigitsCore 10 fuel n ds, c.isDigit = true := by
  intro fuel
  induction fuel with
  | zero => intro n ds hds; exact hds
  | succ m ih =>
    intro n ds hds c hc
    by_cases h10 : n / 10 = 0
    · simp only [Nat.toDigitsCore, h10, if_true] at hc
      rcases List.mem_cons.mp hc with h | h
      · rw [h]
        exact digitChar_isDigit _ (Nat.mod_lt n (by omega))
      · exact hds c h
    · simp only [Nat.toDigitsCore, h10, if_false] at hc
      refine ih (n / 10) (Nat.digitChar (n % 10) :: ds) ?_ c hc
      intro c' hc'
      rcases List.mem_cons.mp hc' with h | h
      · rw [h]
        exact digitChar_isDigit _ (Nat.mod_lt n (by omega))
      · exact hds c' h

theorem toDigitsCore_ne_nil :
    ∀ (fuel n : ℕ) (ds : List Char), ds ≠ [] → Nat.toDigitsCore 10 fuel n ds ≠ [] := by
  intro fuel
  induction fuel with
  | zero => intro n ds h; exact h
  | succ m ih =>
    intro n ds _
    by_cases h10 : n / 10 = 0
    · simp only [Nat.toDigitsCore, h10, if_true]
      exact List.cons_ne_nil _ _
    · simp only [Nat.toDigitsCore, h10, if_false]
      exact ih (n / 10) _ (List.cons_ne_nil _ _)

theorem toDigits_ne_nil (n : ℕ) : Nat.toDigits 10 n ≠ [] := by
  unfold Nat.toDigits
  by_cases h10 : n / 10 = 0
  · simp only [Nat.toDigitsCore, h10, if_true]
    exact List.cons_ne_nil _ _
  · simp only [Nat.toDigitsCore, h10, if_false]
    exact toDigitsCore_ne_nil n (n / 10) _ (List.cons_ne_nil _ _)

theorem toNat?_repr (n : ℕ) : (Nat.repr n).toNat? = some n := by
  have hdata : (Nat.repr n).data = Nat.toDigits 10 n := rfl
  have hnat : (Nat.repr n).isNat = true := by
    unfold String.isNat
    rw [Bool.and_eq_true]
    constructor
    · have hemp : (Nat.repr n).isEmpty = false := by
        cases h : (Nat.repr n).isEmpty
        · rfl
        · have hs : Nat.repr n = "" := (String.isEmpty_iff _).mp h
          have hd := congrArg String.data hs
          rw [hdata] at hd
          exact absurd hd (toDigits_ne_nil n)
      rw [hemp]
      rfl
    · rw [String.all_eq, hdata, List.all_eq_true]
      intro c hc
      exact toDigitsCore_all_isDigit (n + 1) n [] (by intro c h; cases h) c hc
  unfold String.toNat?
  rw [if_pos hnat]
  congr 1
  rw [String.foldl_eq, hdata]
  have h := foldl_toDigitsCore (n + 1) n 0 [] (Nat.lt_succ_self n)
  unfold Nat.toDigits
  rw [show Char.toNat (Char.ofNat 48) = Char.toNat (Char.ofNat 48) from rfl] at h
  simpa using h

/-- The ROI-lifecycle slice of the `ViewerApp` state: the confirmed ROI
list, the id counter, the candidate center and lock flag, the current
radius, and the HUD message (`__init__` lines 147-167). -/
structure RoiSession where
  rois : List Roi
  lesion_counter : ℕ
  candidate_center : Option (ℤ × ℤ × ℤ)
  is_locked : Bool
  radius_mm : ℚ
  last_message : String

/-- Fresh per-case ROI state: empty list, counter 1, no candidate,
unlocked, default radius 5.0 mm. -/
def initRoiSession : RoiSession := ⟨[], 1, none, false, 5, ""⟩

/-- HUD message of a successful confirm. -/
def confirmMsg (n : ℕ) : String :=
  "ROI L" ++ Nat.repr n ++ " confirmada! (autosave OK)"

/-- `viewer/viewer_app.py::confirm_roi` (lines 2168-2202): without a
locked candidate it is a message-only no-op; otherwise it converts the
candidate voxel to mm, appends an ROI with id `L<lesion_counter>`,
increments the counter, and clears candidate and lock. -/
def confirm_roi (meta : Meta) (uid : String) (st : RoiSession) : RoiSession :=
  match st.is_locked, st.candidate_center with
  | true, some c =>
    let i := c.1
    let j := c.2.1
    let k := c.2.2
    let m := voxel_to_mm (i : ℚ) (j : ℚ) (k : ℚ) meta
    let roi : Roi :=
      { id := "L" ++ Nat.repr st.lesion_counter,
        center_mm := ⟨m.1, m.2.1, m.2.2⟩,
        radius_mm := st.radius_mm,
        center_voxel := (i, j, k),
        series_uid := uid }
    { st with rois := st.rois ++ [roi],
              last_message := confirmMsg st.lesion_counter,
              lesion_counter := st.lesion_counter + 1,
              is_locked := false,
              candidate_center := none }
  | _, _ => { st with last_message := "AVISO: Trave o centro com clique primeiro!" }

/-- Numeric-suffix parse used by `delete_last_roi`:
`int(self.rois[-1]['id'][1:])` (ids built by `confirm_roi` are always
`L` followed by decimal digits, on which Python `int` and `String.toNat?`
agree). -/
def roiIdSuffix (s : String) : Option ℕ := (s.drop 1).toNat?

/-- `viewer/viewer_app.py::delete_last_roi` (lines 2145-2166): pop the
most recent ROI; reset the counter to 1 when the list becomes empty,
else re-derive it as the new tail's parsed suffix plus one, falling back
to `len(rois) + 1` when the suffix does not parse. -/
def delete_last_roi (st : RoiSession) : RoiSession :=
  match st.rois.getLast? with
  | none => { st with last_message := "Nenhuma ROI para remover" }
  | some removed =>
    let rois := st.rois.dropLast
    let counter :=
      match rois.getLast? with
      | none => 1
      | some tail =>
        match roiIdSuffix tail.id with
        | some m => m + 1
        | none => rois.length + 1
    { st with rois := rois,
              last_message := "ROI removida: " ++ removed.id,
              lesion_counter := counter }

/-- A confirm/delete-last operation sequence: a confirm op carries the
locked candidate (set by a preceding click), the active geometry and the
active series UID. -/
inductive RoiOp
| confirm (meta : Meta) (uid : String) (cand : ℤ × ℤ × ℤ)
| deleteLast

/-- One operation applied to the session (a confirm op first locks its
candidate, as `on_click` does before `confirm_roi` runs). -/
def roiStep (st : RoiSession) (op : RoiOp) : RoiSession :=
  match op with
  | RoiOp.confirm meta uid cand =>
    confirm_roi meta uid { st with candidate_center := some cand, is_locked := true }
  | RoiOp.deleteLast => delete_last_roi st

/-- Run a sequence of confirm/delete-last operations from the fresh
per-case state. -/
def roiRun (ops : List RoiOp) : RoiSession :=
  ops.foldl roiStep initRoiSession

/-- The ids of the current ROI list. -/
def idsOf (st : RoiSession) : List String :=
  st.rois.map (fun r => r.id)

/-- Sequencing invariant: the ids are `L<n>` for a strictly increasing
list of suffixes whose last value determines the counter. -/
def RoiSeqInv (st : RoiSession) : Prop :=
  ∃ ns : List ℕ,
    idsOf st = ns.map (fun n => "L" ++ Nat.repr n) ∧
    ns.Chain' (· < ·) ∧
    st.lesion_counter = (match ns.getLast? with
      | some m => m + 1
      | none => 1)

theorem roiIdSuffix_mk (n : ℕ) : roiIdSuffix ("L" ++ Nat.repr n) = some n := by
  unfold roiIdSuffix
  have hdrop : ("L" ++ Nat.repr n).drop 1 = Nat.repr n := by
    apply String.ext
    rw [String.data_drop, String.data_append]
    rfl
  rw [hdrop]
  exact toNat?_repr n

theorem roiStep_inv (st : RoiSession) (op : RoiOp) (h : RoiSeqInv st) :
    RoiSeqInv (roiStep st op) := by
  obtain ⟨ns, hmap, hchain, hcnt⟩ := h
  cases op with
  | confirm meta uid cand =>
    refine ⟨ns ++ [st.lesion_counter], ?_, ?_, ?_⟩
    · show idsOf (confirm_roi meta uid
        { st with candidate_center := some cand, is_locked := true }) = _
      unfold confirm_roi idsOf
      dsimp only
      unfold idsOf at hmap
      simp only [List.map_append, hmap, List.map_cons, List.map_nil]
    · refine List.chain'_append.mpr ⟨hchain, List.chain'_singleton _, ?_⟩
      intro x hx y hy
      simp only [List.head?_cons, Option.mem_def, Option.some.injEq] at hy
      subst hy
      rw [Option.mem_def] at hx
      rw [hx] at hcnt
      have hx1 : st.lesion_counter = x + 1 := hcnt
      omega
    · show (confirm_roi meta uid
        { st with candidate_center := some cand, is_locked := true }).lesion_counter = _
      unfold confirm_roi
      dsimp only
      rw [List.getLast?_concat]
  | deleteLast =>
    show RoiSeqInv (delete_last_roi st)
    unfold delete_last_roi
    rcases hl : st.rois.getLast? with _ | removed
    · exact ⟨ns, hmap, hchain, hcnt⟩
    · refine ⟨ns.dropLast, ?_, ?_, ?_⟩
      · show (st.rois.dropLast).map (fun r => r.id) = _
        unfold idsOf at hmap
        rw [List.map_dropLast, hmap, ← List.map_dropLast]
      · exact List.Chain'.prefix hchain ( List.dropLast_prefix ns)
      · dsimp only
        unfold idsOf at hmap
        rcases hnl : st.rois.dropLast.getLast? with _ | tail
        · have hmapl : (st.rois.dropLast.map (fun r => r.id)).getLast? = none := by
            rw [List.getLast?_map, hnl]
            rfl
          rw [List.map_dropLast, hmap, ← List.map_dropLast, List.getLast?_map] at hmapl
          rcases hnsl : ns.dropLast.getLast? with _ | m
          · rfl
          · rw [hnsl] at hmapl
            exact absurd hmapl (by simp)
        · have hmapl : (st.rois.dropLast.map (fun r => r.id)).getLast? =
              some tail.id := by
            rw [List.getLast?_map, hnl]
            rfl
          rw [List.map_dropLast, hmap, ← List.map_dropLast, List.getLast?_map] at hmapl
          rcases hnsl : ns.dropLast.getLast? with _ | m
          · rw [hnsl] at hmapl
            exact absurd hmapl (by simp)
          · rw [hnsl] at hmapl
            have htail : tail.id = "L" ++ Nat.repr m := by
              simpa using hmapl.symm
            show (match roiIdSuffix tail.id with
              | some q => q + 1
              | none => st.rois.dropLast.length + 1) = m + 1
            rw [htail, roiIdSuffix_mk]

theorem roiRun_inv (ops : List RoiOp) : RoiSeqInv (roiRun ops) := by
  unfold roiRun
  have hgen : ∀ (l : List RoiOp) (st : RoiSession), RoiSeqInv st →
      RoiSeqInv (l.foldl roiStep st) := by
    intro l
    induction l with
    | nil => intro st h; exact h
    | cons op t ih =>
      intro st h
      exact ih _ (roiStep_inv st op h)
  exact hgen ops initRoiSession ⟨[], rfl, List.chain'_nil, rfl⟩

/-- C7: over every sequence of confirm and delete-last operations from a
fresh case, the ROI list's ids are of the form `L<n>` with strictly
increasing parsed numeric suffixes; and the next successful confirm
appends the id whose suffix is the current tail's parsed suffix plus one
(in particular after a delete-last it is re-derived from the new tail),
or 1 when the list is empty. -/
theorem C7_roi_id_sequencing (ops : List RoiOp) :
    (idsOf (roiRun ops)).Chain'
        (fun a b => (roiIdSuffix a).getD 0 < (roiIdSuffix b).getD 0) ∧
      (∀ s ∈ idsOf (roiRun ops), ∃ n, s = "L" ++ Nat.repr n) ∧
      (∀ (meta : Meta) (uid : String) (cand : ℤ × ℤ × ℤ),
        idsOf (roiStep (roiRun ops) (RoiOp.confirm meta uid cand)) =
          idsOf (roiRun ops) ++
            ["L" ++ Nat.repr (match (idsOf (roiRun ops)).getLast? with
              | some t => (roiIdSuffix t).getD 0 + 1
              | none => 1)]) := by
  obtain ⟨ns, hmap, hchain, hcnt⟩ := roiRun_inv ops
  refine ⟨?_, ?_, ?_⟩
  · rw [hmap, List.chain'_map]
    refine hchain.imp ?_
    intro a b hab
    rw [roiIdSuffix_mk, roiIdSuffix_mk]
    simpa using hab
  · intro s hs
    rw [hmap] at hs
    obtain ⟨n, _, hn⟩ := List.mem_map.mp hs
    exact ⟨n, hn.symm⟩
  · intro meta uid cand
    have hids : idsOf (roiStep (roiRun ops) (RoiOp.confirm meta uid cand)) =
        idsOf (roiRun ops) ++ ["L" ++ Nat.repr (roiRun ops).lesion_counter] := by
      show idsOf (confirm_roi meta uid
        { roiRun ops with candidate_center := some cand, is_locked := true }) = _
      unfold confirm_roi idsOf
      dsimp only
      simp [List.map_append]
    rw [hids]
    congr 2
    rw [hcnt, hmap, List.getLast?_map]
    rcases hnl : ns.getLast? with _ | t
    · rfl
    · show "L" ++ Nat.repr (t + 1) =
        "L" ++ Nat.repr ((roiIdSuffix ("L" ++ Nat.repr t)).getD 0 + 1)
      rw [roiIdSuffix_mk]
      rfl

/-- Operation sequence for the C7 witness: two confirms, then a
delete-last. -/
def opsW : List RoiOp :=
  [RoiOp.confirm metaId "uidA" (1, 2, 3), RoiOp.confirm metaId "uidA" (4, 5, 6),
    RoiOp.deleteLast]

theorem C7_roi_id_sequencing_witness :
    idsOf (roiRun opsW) = ["L1"] ∧
      idsOf (roiStep (roiRun opsW) (RoiOp.confirm metaId "uidA" (7, 8, 9))) =
        ["L1", "L2"] := by
  have h := (C7_roi_id_sequencing opsW).2.2 metaId "uidA" (7, 8, 9)
  have hids : idsOf (roiRun opsW) = ["L1"] := by rfl
  refine ⟨hids, ?_⟩
  rw [h, hids]
  have h1 : roiIdSuffix "L1" = some 1 := by
    have h2 : ("L1" : String) = "L" ++ Nat.repr 1 := rfl
    rw [h2, roiIdSuffix_mk]
  show ["L1"] ++ ["L" ++ Nat.repr ((roiIdSuffix "L1").getD 0 + 1)] = ["L1", "L2"]
  rw [h1]
  decide

/-- Session input modes (`self.mode`). -/
inductive NavMode
| NORMAL
| SERIES_SELECT
| CASE_SELECT
deriving DecidableEq, Repr

/-- The keys the SELECT-mode branches of `on_key` distinguish: enter,
escape, backspace, a single digit character, anything else. -/
inductive NavKey
| enter
| escape
| backspace
| digit (c : Char)
| other
deriving DecidableEq, Repr

/-- The navigation slice of the `ViewerApp` state touched by the
CASE_SELECT / SERIES_SELECT branches of `on_key` (lines 1983-2041), with
the rest of the session state abstracted as `rest`.  `numCases` and
`numSeries` are `len(self.cases_list)` / `len(self.series_list)`. -/
structure NavState (σ : Type) where
  mode : NavMode
  case_input_str : String
  series_input_str : String
  current_series_idx : ℕ
  series_page : ℕ
  numCases : ℕ
  numSeries : ℕ
  last_message : String
  rest : σ
deriving Repr

/-- Python `s[:-1]` on the capture buffer. -/
def strDropLastChar (s : String) : String := ⟨s.data.dropLast⟩

/-- Error message for malformed numeric entry. -/
def invalidEntryMsg : String := "Entrada invalida (digite apenas numeros)"

/-- Error message for an out-of-range case index. -/
def caseRangeMsg (n len : ℕ) : String :=
  "Caso " ++ Nat.repr n ++ " invalido (1.." ++ Nat.repr len ++ ")"

/-- Error message for an out-of-range series index. -/
def seriesRangeMsg (n len : ℕ) : String :=
  "Indice " ++ Nat.repr n ++ " invalido (1.." ++ Nat.repr len ++ ")"

/-- HUD message after a successful series switch. -/
def seriesSwitchMsg (n : ℕ) : String := "Trocado para serie " ++ Nat.repr n

/-- `viewer/viewer_app.py::load_case` range guard (lines 392-395): an
out-of-range index returns False without touching any state; otherwise
the full case swap (modelled by the `swap` collaborator, which performs
the cache lookup, ROI re-binding, re-validation and candidate reset)
runs and True is returned. -/
def nav_load_case (swap : ℕ → NavState σ → NavState σ) (idx : ℤ) (s : NavState σ) :
    Bool × NavState σ :=
  if 0 ≤ idx ∧ idx < (s.numCases : ℤ) then (true, swap idx.toNat s) else (false, s)

/-- The CASE_SELECT branch of `on_key` (lines 1983-2008): enter parses
the buffer with Python `int` (`String.toNat?` on the digit-only buffer),
attempts `load_case(n - 1)`, returns to NORMAL on success and reports
the error otherwise, clearing the buffer in every enter path; escape
cancels to NORMAL; backspace trims; a digit appends. -/
def on_key_case_select (swap : ℕ → NavState σ → NavState σ) (key : NavKey)
    (s : NavState σ) : NavState σ :=
  match key with
  | NavKey.enter =>
    let s' :=
      match s.case_input_str.toNat? with
      | some n =>
        let r := nav_load_case swap ((n : ℤ) - 1) s
        if r.1 then { r.2 with mode := NavMode.NORMAL }
        else { r.2 with last_message := caseRangeMsg n r.2.numCases }
      | none => { s with last_message := invalidEntryMsg }
    { s' with case_input_str := "" }
  | NavKey.escape =>
    { s with mode := NavMode.NORMAL, case_input_str := "",
             last_message := "Selecao de caso cancelada" }
  | NavKey.backspace => { s with case_input_str := strDropLastChar s.case_input_str }
  | NavKey.digit c => { s with case_input_str := s.case_input_str.push c }
  | NavKey.other => s

/-- The SERIES_SELECT branch of `on_key` (lines 2011-2041): enter parses
the buffer, checks `0 <= n-1 < len(series_list)`, performs the series
swap (`load_current_series`, modelled by the `loadSeries` collaborator)
followed by the message / page / mode updates, or reports the parse or
range error staying in SERIES_SELECT with the buffer cleared; escape
cancels; backspace trims; a digit appends. -/
def on_key_series_select (loadSeries : NavState σ → NavState σ) (key : NavKey)
    (s : NavState σ) : NavState σ :=
  match key with
  | NavKey.enter =>
    match s.series_input_str.toNat? with
    | some n =>
      let idx : ℤ := (n : ℤ) - 1
      if 0 ≤ idx ∧ idx < (s.numSeries : ℤ) then
        let s1 := loadSeries { s with current_series_idx := idx.toNat }
        { s1 with last_message := seriesSwitchMsg n,
                  series_page := idx.toNat / 20,
                  mode := NavMode.NORMAL,
                  series_input_str := "" }
      else { s with last_message := seriesRangeMsg n s.numSeries, series_input_str := "" }
    | none => { s with last_message := invalidEntryMsg, series_input_str := "" }
  | NavKey.escape =>
    { s with mode := NavMode.NORMAL, series_input_str := "",
             last_message := "Selecao cancelada" }
  | NavKey.backspace => { s with series_input_str := strDropLastChar s.series_input_str }
  | NavKey.digit c => { s with series_input_str := s.series_input_str.push c }
  | NavKey.other => s

/-- The SELECT-mode dispatch of `on_key`: which branch runs is decided
by `self.mode`. -/
def on_key_select (swap : ℕ → NavState σ → NavState σ)
    (loadSeries : NavState σ → NavState σ) (key : NavKey) (s : NavState σ) :
    NavState σ :=
  match s.mode with
  | NavMode.CASE_SELECT => on_key_case_select swap key s
  | NavMode.SERIES_SELECT => on_key_series_select loadSeries key s
  | NavMode.NORMAL => s

/-- C8: in CASE_SELECT and SERIES_SELECT, enter with an unparseable
buffer or an out-of-range index only reports the error and clears the
buffer — the state including the SELECT mode is otherwise unchanged; on
a successfully resolved index the case/series swap is performed and the
mode returns to NORMAL; escape returns to NORMAL discarding the buffer.
Quantified over every abstract swap / load collaborator and every
remaining session state. -/
theorem C8_select_mode_error_handling (σ : Type)
    (swap : ℕ → NavState σ → NavState σ) (loadSeries : NavState σ → NavState σ)
    (s : NavState σ) :
    (s.mode = NavMode.CASE_SELECT →
      (s.case_input_str.toNat? = none →
        on_key_select swap loadSeries NavKey.enter s =
          { s with last_message := invalidEntryMsg, case_input_str := "" }) ∧
      (∀ n : ℕ, s.case_input_str.toNat? = some n →
        ¬ (0 ≤ (n : ℤ) - 1 ∧ (n : ℤ) - 1 < (s.numCases : ℤ)) →
        on_key_select swap loadSeries NavKey.enter s =
          { s with last_message := caseRangeMsg n s.numCases, case_input_str := "" }) ∧
      (∀ n : ℕ, s.case_input_str.toNat? = some n →
        (0 ≤ (n : ℤ) - 1 ∧ (n : ℤ) - 1 < (s.numCases : ℤ)) →
        on_key_select swap loadSeries NavKey.enter s =
          { swap ((n : ℤ) - 1).toNat s with
              mode := NavMode.NORMAL, case_input_str := "" } ∧
        (on_key_select swap loadSeries NavKey.enter s).mode = NavMode.NORMAL) ∧
      on_key_select swap loadSeries NavKey.escape s =
        { s with mode := NavMode.NORMAL, case_input_str := "",
                 last_message := "Selecao de caso cancelada" }) ∧
    (s.mode = NavMode.SERIES_SELECT →
      (s.series_input_str.toNat? = none →
        on_key_select swap loadSeries NavKey.enter s =
          { s with last_message := invalidEntryMsg, series_input_str := "" }) ∧
      (∀ n : ℕ, s.series_input_str.toNat? = some n →
        ¬ (0 ≤ (n : ℤ) - 1 ∧ (n : ℤ) - 1 < (s.numSeries : ℤ)) →
        on_key_select swap loadSeries NavKey.enter s =
          { s with last_message := seriesRangeMsg n s.numSeries,
                   series_input_str := "" }) ∧
      (∀ n : ℕ, s.series_input_str.toNat? = some n →
        (0 ≤ (n : ℤ) - 1 ∧ (n : ℤ) - 1 < (s.numSeries : ℤ)) →
        on_key_select swap loadSeries NavKey.enter s =
          { loadSeries { s with current_series_idx := ((n : ℤ) - 1).toNat } with
              last_message := seriesSwitchMsg n,
              series_page := ((n : ℤ) - 1).toNat / 20,
              mode := NavMode.NORMAL,
              series_input_str := "" } ∧
        (on_key_select swap loadSeries NavKey.enter s).mode = NavMode.NORMAL) ∧
      on_key_select swap loadSeries NavKey.escape s =
        { s with mode := NavMode.NORMAL, series_input_str := "",
                 last_message := "Selecao cancelada" }) := by
  obtain ⟨md, cb, sb, ci, sp, nc, nsr, msg, rst⟩ := s
  constructor
  · intro hmode
    dsimp only at hmode
    subst hmode
    refine ⟨?_, ?_, ?_, ?_⟩
    · intro hparse
      dsimp only at hparse
      unfold on_key_select on_key_case_select
      rw [hparse]
    · intro n hparse hrange
      dsimp only at hparse hrange
      unfold on_key_select on_key_case_select nav_load_case
      rw [hparse]
      dsimp only
      rw [if_neg hrange]
      rfl
    · intro n hparse hrange
      dsimp only at hparse hrange
      unfold on_key_select on_key_case_select nav_load_case
      rw [hparse]
      dsimp only
      rw [if_pos hrange]
      exact ⟨rfl, rfl⟩
    · rfl
  · intro hmode
    dsimp only at hmode
    subst hmode
    refine ⟨?_, ?_, ?_, ?_⟩
    · intro hparse
      dsimp only at hparse
      unfold on_key_select on_key_series_select
      rw [hparse]
    · intro n hparse hrange
      dsimp only at hparse hrange
      unfold on_key_select on_key_series_select
      rw [hparse]
      dsimp only
      rw [if_neg hrange]
    · intro n hparse hrange
      dsimp only at hparse hrange
      unfold on_key_select on_key_series_select
      rw [hparse]
      dsimp only
      rw [if_pos hrange]
      exact ⟨rfl, rfl⟩
    · rfl

/-- Concrete states for the C8 witness (2 cases, 3 series). -/
def navCaseFail : NavState Unit := ⟨NavMode.CASE_SELECT, "", "", 0, 0, 2, 3, "", ()⟩

def navCaseRange : NavState Unit := ⟨NavMode.CASE_SELECT, "9", "", 0, 0, 2, 3, "", ()⟩

def navCaseOk : NavState Unit := ⟨NavMode.CASE_SELECT, "1", "", 0, 0, 2, 3, "", ()⟩

def navSeriesOk : NavState Unit := ⟨NavMode.SERIES_SELECT, "", "2", 0, 0, 2, 3, "", ()⟩

theorem C8_select_mode_error_handling_witness :
    (String.toNat? "" = none ∧ navCaseFail.mode = NavMode.CASE_SELECT ∧
      on_key_select (fun _ s => s) (fun s => s) NavKey.enter navCaseFail =
        { navCaseFail with last_message := invalidEntryMsg, case_input_str := "" }) ∧
      on_key_select (fun _ s => s) (fun s => s) NavKey.enter navCaseRange =
        { navCaseRange with last_message := caseRangeMsg 9 2, case_input_str := "" } ∧
      (on_key_select (fun _ s => s) (fun s => s) NavKey.enter navCaseOk).mode =
        NavMode.NORMAL ∧
      (on_key_select (fun _ s => s) (fun s => s) NavKey.enter navSeriesOk).mode =
        NavMode.NORMAL ∧
      on_key_select (fun _ s => s) (fun s => s) NavKey.escape navCaseFail =
        { navCaseFail with mode := NavMode.NORMAL, case_input_str := "",
                           last_message := "Selecao de caso cancelada" } := by
  have hempty : String.toNat? "" = none := rfl
  have h9 : ("9" : String).toNat? = some 9 := by
    rw [show ("9" : String) = Nat.repr 9 from rfl]
    exact toNat?_repr 9
  have h1 : ("1" : String).toNat? = some 1 := by
    rw [show ("1" : String) = Nat.repr 1 from rfl]
    exact toNat?_repr 1
  have h2 : ("2" : String).toNat? = some 2 := by
    rw [show ("2" : String) = Nat.repr 2 from rfl]
    exact toNat?_repr 2
  refine ⟨⟨hempty, rfl, ?_⟩, ?_, ?_, ?_, ?_⟩
  · exact ((C8_select_mode_error_handling Unit (fun _ s => s) (fun s => s)
      navCaseFail).1 rfl).1 hempty
  · exact ((C8_select_mode_error_handling Unit (fun _ s => s) (fun s => s)
      navCaseRange).1 rfl).2.1 9 h9 (by decide)
  · exact (((C8_select_mode_error_handling Unit (fun _ s => s) (fun s => s)
      navCaseOk).1 rfl).2.2.1 1 h1 (by decide)).2
  · exact (((C8_select_mode_error_handling Unit (fun _ s => s) (fun s => s)
      navSeriesOk).2 rfl).2.2.1 2 h2 (by decide)).2
  · exact ((C8_select_mode_error_handling Unit (fun _ s => s) (fun s => s)
      navCaseFail).1 rfl).2.2.2

/-- The three reformatted planes. -/
inductive Plane
| axial
| coronal
| sagittal
deriving DecidableEq, Repr

/-- The volume-and-cursor slice of the `ViewerApp` state used by
`load_current_series`, `_set_center_voxel`, `_move_center_slice`,
`on_click` placement and `_jump_to_gt_slice`.  `np_vol` carries the
loaded array's shape `(sz_k, sz_j, sz_i)`; per-plane view/window-level
state (rendering only) is out of scope. -/
structure ViewerState where
  cache : SeriesCache (String × ℕ) Volume
  np_vol : Option (ℕ × ℕ × ℕ)
  meta : Option Meta
  rois : List Roi
  roi_status : List (String × RoiStatus)
  center_voxel : ℤ × ℤ × ℤ
  center_mm : Option Vec3
  current_case : String
  current_series_idx : ℕ
  current_slice : ℤ
  max_slice : ℤ
  candidate_center : Option (ℤ × ℤ × ℤ)
  is_locked : Bool
  last_message : String

/-- `viewer/viewer_app.py::_set_center_voxel` (lines 672-684): with a
loaded volume, clamp each component into `[0, size)`, set the shared
center voxel and slice, and recompute the physical center; without a
volume, store the components unclamped. -/
def set_center_voxel (st : ViewerState) (i j k : ℤ) : ViewerState :=
  match st.np_vol, st.meta with
  | some (szK, szJ, szI), some m =>
    let i' := max 0 (min i ((szI : ℤ) - 1))
    let j' := max 0 (min j ((szJ : ℤ) - 1))
    let k' := max 0 (min k ((szK : ℤ) - 1))
    let mm := voxel_to_mm (i' : ℚ) (j' : ℚ) (k' : ℚ) m
    { st with center_voxel := (i', j', k'), current_slice := k',
              center_mm := some ⟨mm.1, mm.2.1, mm.2.2⟩ }
  | _, _ => { st with center_voxel := (i, j, k), current_slice := k }

/-- `viewer/viewer_app.py::_move_center_slice` (lines 686-697): step the
center along the active plane's depth axis, clamped, then re-center. -/
def move_center_slice (st : ViewerState) (plane : Plane) (delta : ℤ) : ViewerState :=
  match st.np_vol with
  | none => st
  | some (szK, szJ, szI) =>
    let i := st.center_voxel.1
    let j := st.center_voxel.2.1
    let k := st.center_voxel.2.2
    match plane with
    | Plane.axial => set_center_voxel st i j (max 0 (min (k + delta) ((szK : ℤ) - 1)))
    | Plane.sagittal => set_center_voxel st (max 0 (min (i + delta) ((szI : ℤ) - 1))) j k
    | Plane.coronal => set_center_voxel st i (max 0 (min (j + delta) ((szJ : ℤ) - 1))) k

/-- The volume the cache access of `load_current_series` yields for the
current (case, series) key. -/
def currentVolume (load : String × ℕ → Volume) (st : ViewerState) : Volume :=
  (cacheAccess (load (st.current_case, st.current_series_idx)) st.cache
    (st.current_case, st.current_series_idx)).2

/-- `viewer/viewer_app.py::load_current_series` (lines 574-670), success
path (series list nonempty, decode succeeds — the loader collaborator is
total): cache access, `max_slice` update, ROI re-validation against the
new geometry, ROI voxel-center re-binding via `mm_to_voxel`, center
placement (explicit mm parameter, else preserved physical center, else
the volume midpoint) with clamping, and candidate/lock reset. -/
def load_current_series (load : String × ℕ → Volume) (center_mm_param : Option Vec3)
    (st : ViewerState) : ViewerState :=
  let key := (st.current_case, st.current_series_idx)
  let acc := cacheAccess (load key) st.cache key
  let vol := acc.2
  let m := vol.meta
  let szK := vol.shape.1
  let szJ := vol.shape.2.1
  let szI := vol.shape.2.2
  let status := validate_rois m szK szJ szI st.rois
  let rois' := st.rois.map (fun r =>
    { r with center_voxel := mm_to_voxel r.center_mm.x r.center_mm.y r.center_mm.z m })
  let st2 := { st with cache := acc.1, np_vol := some vol.shape, meta := some m,
                       max_slice := (szK : ℤ) - 1, roi_status := status, rois := rois' }
  let st3 :=
    match center_mm_param with
    | some c =>
      let v := mm_to_voxel c.x c.y c.z m
      set_center_voxel st2 (max 0 (min v.1 ((szI : ℤ) - 1)))
        (max 0 (min v.2.1 ((szJ : ℤ) - 1))) (max 0 (min v.2.2 ((szK : ℤ) - 1)))
    | none =>
      match st.center_mm with
      | some c =>
        let v := mm_to_voxel c.x c.y c.z m
        set_center_voxel st2 (max 0 (min v.1 ((szI : ℤ) - 1)))
          (max 0 (min v.2.1 ((szJ : ℤ) - 1))) (max 0 (min v.2.2 ((szK : ℤ) - 1)))
      | none => set_center_voxel st2 ((szI : ℤ) / 2) ((szJ : ℤ) / 2) ((szK : ℤ) / 2)
  { st3 with candidate_center := none, is_locked := false, last_message := "Pronto" }

/-- Left-click placement in `on_click` (lines 1875-1939): with a loaded
volume, derive the clicked in-plane coordinates (event data divided by
spacing, rounded), re-center through `_set_center_voxel`, and lock the
candidate. -/
def on_click_place (st : ViewerState) (plane : Plane) (xdata ydata : ℚ) : ViewerState :=
  match st.meta, st.np_vol with
  | some m, some _ =>
    let i := st.center_voxel.1
    let j := st.center_voxel.2.1
    let k := st.center_voxel.2.2
    let p :=
      match plane with
      | Plane.axial => (pyRound (xdata / m.spacing.x), pyRound (ydata / m.spacing.y), k)
      | Plane.sagittal => (i, pyRound (xdata / m.spacing.y), pyRound (ydata / m.spacing.z))
      | Plane.coronal => (pyRound (xdata / m.spacing.x), j, pyRound (ydata / m.spacing.z))
    let st1 := set_center_voxel st p.1 p.2.1 p.2.2
    { st1 with candidate_center := some p, is_locked := true,
               last_message := "Centro travado. Pressione Enter para confirmar." }
  | _, _ => st

/-- `_jump_to_gt_slice` (lines 1759-1785) with the chosen ground-truth
lesion's mm position abstracted as `target`: convert to voxel space and
re-center through `_set_center_voxel`. -/
def jump_to_gt (st : ViewerState) (target : Vec3) : ViewerState :=
  match st.meta, st.np_vol with
  | some m, some _ =>
    let v := mm_to_voxel target.x target.y target.z m
    { set_center_voxel st v.1 v.2.1 v.2.2 with
        last_message := "Pulando para GT mais proxima" }
  | _, _ => st

/-- The claimed invariant: every component of the center voxel is a
valid index into the current volume's grid. -/
def inBounds (v : ℤ × ℤ × ℤ) (szK szJ szI : ℕ) : Prop :=
  0 ≤ v.1 ∧ v.1 < (szI : ℤ) ∧ 0 ≤ v.2.1 ∧ v.2.1 < (szJ : ℤ) ∧
    0 ≤ v.2.2 ∧ v.2.2 < (szK : ℤ)

theorem load_current_series_np_vol (load : String × ℕ → Volume) (p : Option Vec3)
    (st : ViewerState) :
    (load_current_series load p st).np_vol = some (currentVolume load st).shape := by
  unfold load_current_series currentVolume set_center_voxel
  rcases p with _ | c
  · rcases hc : st.center_mm with _ | c0 <;> rfl
  · rfl

/-- C9: a series swap of the same case (`load_current_series`) leaves
every confirmed ROI's physical mm center, radius and id unchanged, while
the derived voxel center is recomputed from the mm center through the
new geometry's `mm_to_voxel` and the validation statuses are recomputed
against the new volume; the newly loaded geometry and shape are those of
the cache-accessed volume. -/
theorem C9_series_swap_roi_rebinding (load : String × ℕ → Volume)
    (p : Option Vec3) (st : ViewerState) :
    (load_current_series load p st).rois.map (fun r => r.center_mm) =
        st.rois.map (fun r => r.center_mm) ∧
      (load_current_series load p st).rois.map (fun r => r.radius_mm) =
        st.rois.map (fun r => r.radius_mm) ∧
      (load_current_series load p st).rois.map (fun r => r.id) =
        st.rois.map (fun r => r.id) ∧
      (load_current_series load p st).rois = st.rois.map (fun r =>
        { r with center_voxel := (mm_to_voxel r.center_mm.x r.center_mm.y
            r.center_mm.z (currentVolume load st).meta) }) ∧
      (load_current_series load p st).roi_status =
        validate_rois (currentVolume load st).meta (currentVolume load st).shape.1
          (currentVolume load st).shape.2.1 (currentVolume load st).shape.2.2 st.rois ∧
      (load_current_series load p st).meta = some (currentVolume load st).meta ∧
      (load_current_series load p st).np_vol = some (currentVolume load st).shape := by
  have hrois : (load_current_series load p st).rois = st.rois.map (fun r =>
      { r with center_voxel := (mm_to_voxel r.center_mm.x r.center_mm.y
          r.center_mm.z (currentVolume load st).meta) }) := by
    unfold load_current_series currentVolume set_center_voxel
    rcases p with _ | c
    · rcases hc : st.center_mm with _ | c0 <;> rfl
    · rfl
  have hstatus : (load_current_series load p st).roi_status =
      validate_rois (currentVolume load st).meta (currentVolume load st).shape.1
        (currentVolume load st).shape.2.1 (currentVolume load st).shape.2.2 st.rois := by
    unfold load_current_series currentVolume set_center_voxel
    rcases p with _ | c
    · rcases hc : st.center_mm with _ | c0 <;> rfl
    · rfl
  have hmeta : (load_current_series load p st).meta =
      some (currentVolume load st).meta := by
    unfold load_current_series currentVolume set_center_voxel
    rcases p with _ | c
    · rcases hc : st.center_mm with _ | c0 <;> rfl
    · rfl
  have hvol : (load_current_series load p st).np_vol =
      some (currentVolume load st).shape := by
    unfold load_current_series currentVolume set_center_voxel
    rcases p with _ | c
    · rcases hc : st.center_mm with _ | c0 <;> rfl
    · rfl
  refine ⟨?_, ?_, ?_, hrois, hstatus, hmeta, hvol⟩
  · rw [hrois, List.map_map]
    rfl
  · rw [hrois, List.map_map]
    rfl
  · rw [hrois, List.map_map]
    rfl

theorem set_center_voxel_inBounds (st : ViewerState) (i j k : ℤ)
    (sh : ℕ × ℕ × ℕ) (m : Meta) (hv : st.np_vol = some sh) (hm : st.meta = some m)
    (h1 : 1 ≤ sh.1) (h2 : 1 ≤ sh.2.1) (h3 : 1 ≤ sh.2.2) :
    inBounds (set_center_voxel st i j k).center_voxel sh.1 sh.2.1 sh.2.2 := by
  obtain ⟨szK, szJ, szI⟩ := sh
  unfold set_center_voxel
  rw [hv, hm]
  dsimp only [inBounds]
  simp only at h1 h2 h3
  omega

/-- C10: whenever a volume is loaded (nonempty on all axes), every
operation moving the shared center voxel — setting it directly, slice
stepping, click placement, jumping to a ground-truth lesion, and the
re-centering done by a series load — leaves the center voxel clamped
into `[0, size)` on every axis. -/
theorem C10_center_voxel_always_in_bounds
    (st : ViewerState) (i j k : ℤ) (plane plane2 : Plane) (delta : ℤ)
    (xdata ydata : ℚ) (target : Vec3)
    (sh : ℕ × ℕ × ℕ) (m : Meta)
    (load : String × ℕ → Volume) (p : Option Vec3) (stl : ViewerState)
    (hv : st.np_vol = some sh) (hm : st.meta = some m)
    (h1 : 1 ≤ sh.1) (h2 : 1 ≤ sh.2.1) (h3 : 1 ≤ sh.2.2)
    (hl1 : 1 ≤ (currentVolume load stl).shape.1)
    (hl2 : 1 ≤ (currentVolume load stl).shape.2.1)
    (hl3 : 1 ≤ (currentVolume load stl).shape.2.2) :
    inBounds (set_center_voxel st i j k).center_voxel sh.1 sh.2.1 sh.2.2 ∧
      inBounds (move_center_slice st plane delta).center_voxel sh.1 sh.2.1 sh.2.2 ∧
      inBounds (on_click_place st plane2 xdata ydata).center_voxel sh.1 sh.2.1 sh.2.2 ∧
      inBounds (jump_to_gt st target).center_voxel sh.1 sh.2.1 sh.2.2 ∧
      (inBounds (load_current_series load p stl).center_voxel
          (currentVolume load stl).shape.1 (currentVolume load stl).shape.2.1
          (currentVolume load stl).shape.2.2 ∧
        (load_current_series load p stl).np_vol =
          some (currentVolume load stl).shape) := by
  refine ⟨set_center_voxel_inBounds st i j k sh m hv hm h1 h2 h3, ?_, ?_, ?_, ?_⟩
  · unfold move_center_slice
    rw [hv]
    obtain ⟨szK, szJ, szI⟩ := sh
    cases plane <;>
      exact set_center_voxel_inBounds st _ _ _ (szK, szJ, szI) m hv hm h1 h2 h3
  · unfold on_click_place
    rw [hv, hm]
    cases plane2 <;>
      exact set_center_voxel_inBounds st _ _ _ sh m hv hm h1 h2 h3
  · unfold jump_to_gt
    rw [hv, hm]
    exact set_center_voxel_inBounds st _ _ _ sh m hv hm h1 h2 h3
  · have hvol : (load_current_series load p stl).np_vol =
        some (currentVolume load stl).shape :=
      (C9_series_swap_roi_rebinding load p stl).2.2.2.2.2.2
    refine ⟨?_, hvol⟩
    unfold load_current_series currentVolume set_center_voxel
    unfold currentVolume at hl1 hl2 hl3
    rcases p with _ | c
    · rcases hc : stl.center_mm with _ | c0 <;>
        · dsimp only [inBounds]
          omega
    · dsimp only [inBounds]
      omega

/-- Concrete viewer state for the C10 witness: a loaded 4x5x6 volume. -/
def stV : ViewerState :=
  ⟨⟨[], [], 6⟩, some (4, 5, 6), some metaId, [], [], (0, 0, 0), none, "case1", 0, 0, 0,
    none, false, ""⟩

/-- Loader collaborator for the C10 witness: a 3x4x5 volume. -/
def loadV : String × ℕ → Volume := fun _ => ⟨(3, 4, 5), metaId⟩

theorem C10_center_voxel_always_in_bounds_witness :
    stV.np_vol = some (4, 5, 6) ∧ stV.meta = some metaId ∧
      (1 : ℕ) ≤ (currentVolume loadV stV).shape.1 ∧
      inBounds (set_center_voxel stV 100 (-3) 2).center_voxel 4 5 6 ∧
      inBounds (move_center_slice stV Plane.axial 1).center_voxel 4 5 6 ∧
      inBounds (on_click_place stV Plane.coronal (1/2) (1/2)).center_voxel 4 5 6 ∧
      inBounds (jump_to_gt stV ⟨0, 0, 0⟩).center_voxel 4 5 6 ∧
      inBounds (load_current_series loadV none stV).center_voxel 3 4 5 := by
  have hl1 : (1 : ℕ) ≤ (currentVolume loadV stV).shape.1 := by decide
  have hl2 : (1 : ℕ) ≤ (currentVolume loadV stV).shape.2.1 := by decide
  have hl3 : (1 : ℕ) ≤ (currentVolume loadV stV).shape.2.2 := by decide
  have h := C10_center_voxel_always_in_bounds stV 100 (-3) 2 Plane.axial Plane.coronal
    1 (1/2) (1/2) ⟨0, 0, 0⟩ (4, 5, 6) metaId loadV none stV rfl rfl
    (by decide) (by decide) (by decide) hl1 hl2 hl3
  exact ⟨rfl, rfl, hl1, h.1, h.2.1, h.2.2.1, h.2.2.2.1, h.2.2.2.2.1⟩
